import Mathlib

/-!
Verification of the 2D polygon geometry kernel in `src/utils/polygon.h`
(classes `PolygonRef` and `Polygons`).

Loops are embedded as `List Point` with `Point = Int × Int` (the engine
stores exact integer coordinates, so `Int` arithmetic is the faithful
model; the products computed by the kernel at the coordinate ranges used
here are far below the `int64_t` overflow boundary).

The point/vector primitive (`intpoint.h`) and the clipping engine
(ClipperLib) are not part of `src/`; the handful of operations the kernel
consumes from them are modelled from the spec and carry a doc comment
starting with `Modelled from the spec:`.
-/

set_option autoImplicit false

namespace cura

/-- A 2D integer point, the external point primitive of the kernel. -/
abbrev Point := Int × Int

/-- Default point used for in-range indexed access into loops. -/
def origin : Point := ((0 : Int), (0 : Int))

/-- One closed loop of points (a `ClipperLib::Path`). -/
abbrev Loop := List Point

/-- An ordered collection of loops (a `ClipperLib::Paths` / `Polygons`). -/
abbrev Shape := List Loop

/-- Modelled from the spec: the dot product of the external point primitive. -/
def dot (p q : Point) : Int := p.1 * q.1 + p.2 * q.2

/-- Modelled from the spec: the squared Euclidean length (`vSize2`). -/
def vSize2 (p : Point) : Int := p.1 * p.1 + p.2 * p.2

/-- Helper for the integer square root: counts down from the fuel and
returns the first `k` with `k * k ≤ n`. -/
def isqrtAux : Nat → Nat → Nat
  | 0, _ => 0
  | k + 1, n => if k * k ≤ n then k else isqrtAux k n

/-- Floor integer square root, written with structural recursion so that it
evaluates by kernel reduction. -/
def isqrt (n : Nat) : Nat := isqrtAux (n + 1) n

/-- Modelled from the spec: the Euclidean length of the point primitive
(`vSize` in `intpoint.h`, which is not under `src/`).  The C++ function
returns an `int64_t`, so the square root is truncated to an integer. -/
def vSize (p : Point) : Int := (isqrt (vSize2 p).toNat : Int)

/-- Modelled from the spec: `shorterThen` of the point primitive, true when
the vector is shorter than `len` (the spec reads: the chord is shorter
than `removeLength`). -/
def shorterThen (p : Point) (len : Int) : Bool := vSize2 p < len * len

/-! ### Point-in-polygon classification (`PolygonRef::inside`) -/

/-- Classification of one edge by the ray-casting walk: the query point is
exactly on the edge, the +X ray crosses the edge, or neither. -/
inductive EdgeCase where
  | border : EdgeCase
  | crossing : EdgeCase
  | nocross : EdgeCase
deriving DecidableEq

/-- The per-edge test of `PolygonRef::inside` (`src/utils/polygon.h`,
lines 217-267): falling and rising edges are handled by separate branches
with half-open semantics on `Y`; `dx = 0` means the point lies exactly on
the edge and the function returns the border result; a horizontal edge at
the query height counts as border only when the point falls inside its
X-span or matches an endpoint. -/
def PolygonRef.edgeCase (p p0 p1 : Point) : EdgeCase :=
  if max p0.1 p1.1 ≥ p.1 then
    let pdY := p1.2 - p0.2
    if pdY < 0 then
      if p1.2 ≤ p.2 ∧ p0.2 > p.2 then
        let dx := (p1.1 - p0.1) * (p1.2 - p.2) - (p1.1 - p.1) * pdY
        if dx = 0 then .border else if dx > 0 then .crossing else .nocross
      else .nocross
    else if p.2 ≥ p0.2 then
      if p.2 < p1.2 then
        let dx := (p1.1 - p0.1) * (p.2 - p0.2) - (p.1 - p0.1) * pdY
        if dx = 0 then .border else if dx > 0 then .crossing else .nocross
      else if p.2 = p1.2 then
        if p.1 = p1.1 ∨ (pdY = 0 ∧ min p0.1 p1.1 ≤ p.1) then .border
        else .nocross
      else .nocross
    else .nocross
  else .nocross

/-- The edge loop of `PolygonRef::inside`: `p0` is the previous vertex, the
list holds the remaining vertices, and `crossings` counts ray crossings so
far.  A border hit returns `borderResult` immediately, mirroring the early
`return border_result` of the C++ loop. -/
def PolygonRef.insideGo (p : Point) (borderResult : Bool) :
    Point → List Point → Nat → Bool
  | _, [], crossings => decide (crossings % 2 = 1)
  | p0, p1 :: rest, crossings =>
    match PolygonRef.edgeCase p p0 p1 with
    | .border => borderResult
    | .crossing => PolygonRef.insideGo p borderResult p1 rest (crossings + 1)
    | .nocross => PolygonRef.insideGo p borderResult p1 rest crossings

/-- `PolygonRef::inside` (`src/utils/polygon.h`, lines 205-271): ray
casting from `p` towards +X.  An empty loop returns false; otherwise the
walk starts with `p0 = back()` and visits every vertex in order. -/
def PolygonRef.inside (poly : Loop) (p : Point) (borderResult : Bool) : Bool :=
  match poly with
  | [] => false
  | q :: qs =>
      PolygonRef.insideGo p borderResult ((q :: qs).getLast (by simp)) (q :: qs) 0

/-- The unit square loop used by the spec for the containment tests. -/
def unitSquare : Loop := [(0, 0), (10, 0), (10, 10), (0, 10)]

/-! ### Shape-level containment (`Polygons::inside`) -/

/-- The hole loop of `Polygons::inside`: every loop after the first must
not contain the point. -/
def Polygons.insideGo (p : Point) : Shape → Bool
  | [] => true
  | l :: rest =>
      if PolygonRef.inside l p false then false else Polygons.insideGo p rest

/-- `Polygons::inside` (`src/utils/polygon.h`, lines 740-752): the point
must be inside loop 0 and inside no loop of index 1 or beyond; an empty
shape returns false. -/
def Polygons.inside (shape : Shape) (p : Point) : Bool :=
  match shape with
  | [] => false
  | l0 :: rest =>
      if PolygonRef.inside l0 p false then Polygons.insideGo p rest else false

theorem Polygons.insideGo_eq_true_iff (p : Point) (rest : Shape) :
    Polygons.insideGo p rest = true ↔
      ∀ l ∈ rest, PolygonRef.inside l p false = false := by
  induction rest with
  | nil => simp [Polygons.insideGo]
  | cons l rest ih =>
      by_cases h : PolygonRef.inside l p false
      · simp [Polygons.insideGo, h]
      · simp only [Bool.not_eq_true] at h
        simp [Polygons.insideGo, h, ih]

/-- Claim C1: for the unit square loop (0,0),(10,0),(10,10),(0,10),
`containsPoint` classifies (5,5) as inside and (20,5) as outside, and
returns the caller-supplied border result both for the edge point (10,5)
and for the corner (10,10); and on an empty loop it returns false for
every query point. -/
theorem C1_containsPoint :
    (∀ borderResult : Bool,
        PolygonRef.inside unitSquare (5, 5) borderResult = true ∧
        PolygonRef.inside unitSquare (20, 5) borderResult = false ∧
        PolygonRef.inside unitSquare (10, 5) borderResult = borderResult ∧
        PolygonRef.inside unitSquare (10, 10) borderResult = borderResult) ∧
    (∀ (p : Point) (borderResult : Bool),
        PolygonRef.inside [] p borderResult = false) := by
  constructor
  · decide
  · intro p borderResult
    rfl

/-- Claim C10: `Polygons::inside` returns true exactly when the point is
inside loop 0 and not inside any loop of index 1 or beyond, every loop
after the first being treated as a hole; an empty shape always returns
false. -/
theorem C10_shape_inside (shape : Shape) (p : Point) :
    Polygons.inside shape p = true ↔
      ∃ l0 rest, shape = l0 :: rest ∧
        PolygonRef.inside l0 p false = true ∧
        ∀ l ∈ rest, PolygonRef.inside l p false = false := by
  cases shape with
  | nil => simp [Polygons.inside]
  | cons l0 rest =>
      by_cases h : PolygonRef.inside l0 p false
      · simp only [Polygons.inside, h, if_true, Polygons.insideGo_eq_true_iff]
        constructor
        · intro hall
          exact ⟨l0, rest, rfl, h, hall⟩
        · rintro ⟨l1, rest1, heq, _, hall⟩
          cases heq
          exact hall
      · simp only [Bool.not_eq_true] at h
        simp [Polygons.inside, h]

/-! ### Smoothing (`PolygonRef::smooth`) -/

/-- The loop body of `PolygonRef::smooth` (`src/utils/polygon.h`, lines
279-287): `prev` is the vertex at index `poly_idx - 1`.  When the chord
`prev - cur` is short the current vertex is not emitted, the index is
advanced once more, and the vertex after it is emitted without being
tested (the code comment reads: skip the next line piece, dont escalate
the removal of edges); otherwise the current vertex is emitted. -/
def PolygonRef.smoothGo (removeLength : Int) : Point → List Point → List Point
  | _, [] => []
  | prev, cur :: rest =>
    if shorterThen (prev - cur) removeLength then
      match rest with
      | [] => []
      | nxt :: rest2 => nxt :: PolygonRef.smoothGo removeLength nxt rest2
    else cur :: PolygonRef.smoothGo removeLength cur rest

/-- `PolygonRef::smooth` (`src/utils/polygon.h`, lines 273-288): the first
point of a non-empty loop is always emitted, then the walk above runs from
index 1. -/
def PolygonRef.smooth (poly : Loop) (removeLength : Int) : Loop :=
  match poly with
  | [] => []
  | p :: rest => p :: PolygonRef.smoothGo removeLength p rest

/-- The walk of claim C4 read literally: when the chord from the previous
emitted point to the current point is short, the current point is not
emitted and the next point is also skipped unconditionally; otherwise the
current point is emitted and becomes the previous emitted point. -/
def claimedSmoothGo (removeLength : Int) :
    Point → List Point → List Point
  | _, [] => []
  | prevEmitted, cur :: rest =>
    if shorterThen (prevEmitted - cur) removeLength then
      match rest with
      | [] => []
      | _ :: rest2 => claimedSmoothGo removeLength prevEmitted rest2
    else cur :: claimedSmoothGo removeLength cur rest

/-- Claim C4 read literally, at the loop level: first point emitted, then
the skipping walk. -/
def claimedSmooth (poly : Loop) (removeLength : Int) : Loop :=
  match poly with
  | [] => []
  | p :: rest => p :: claimedSmoothGo removeLength p rest

/-- The amended description of the smoothing walk: a flag records that the
previous point was dropped for being too close, in which case the current
point is emitted unconditionally without being tested; otherwise the chord
from the previous emitted point decides whether the current point is
emitted. -/
def amendedSmoothGo (removeLength : Int) :
    Bool → Point → List Point → List Point
  | _, _, [] => []
  | true, _, cur :: rest => cur :: amendedSmoothGo removeLength false cur rest
  | false, prev, cur :: rest =>
    if shorterThen (prev - cur) removeLength then
      amendedSmoothGo removeLength true prev rest
    else cur :: amendedSmoothGo removeLength false cur rest

/-- The amended claim at the loop level: first point of a non-empty loop
always emitted, then the flagged walk. -/
def amendedSmooth (poly : Loop) (removeLength : Int) : Loop :=
  match poly with
  | [] => []
  | p :: rest => p :: amendedSmoothGo removeLength false p rest

theorem smoothGo_eq_amendedGo (removeLength : Int) (prev : Point)
    (l : List Point) :
    PolygonRef.smoothGo removeLength prev l =
      amendedSmoothGo removeLength false prev l := by
  match l with
  | [] => rfl
  | cur :: rest =>
    by_cases h : shorterThen (prev - cur) removeLength
    · match rest with
      | [] => simp [PolygonRef.smoothGo, amendedSmoothGo, h]
      | nxt :: rest2 =>
          simp [PolygonRef.smoothGo, amendedSmoothGo, h,
            smoothGo_eq_amendedGo removeLength nxt rest2]
    · match rest with
      | [] => simp [PolygonRef.smoothGo, amendedSmoothGo, h]
      | nxt :: rest2 =>
          simp [PolygonRef.smoothGo, amendedSmoothGo, h,
            smoothGo_eq_amendedGo removeLength cur (nxt :: rest2)]

/-- The concrete loop on which the literal reading of claim C4 differs
from the code. -/
def smoothExample : Loop := [(0, 0), (1, 0), (1, 1), (50, 50)]

/-- Claim C4, counterexample: on the loop (0,0),(1,0),(1,1),(50,50) with
removeLength 10 the chord (0,0)-(1,0) is short, and the code then emits
the following vertex (1,1) unconditionally, while the claim says that
vertex is skipped as well: the code output keeps (1,1), the claimed
output does not. -/
theorem C4_counterexample :
    PolygonRef.smooth smoothExample 10 = [(0, 0), (1, 1), (50, 50)] ∧
    claimedSmooth smoothExample 10 = [(0, 0), (50, 50)] ∧
    PolygonRef.smooth smoothExample 10 ≠ claimedSmooth smoothExample 10 := by
  exact ⟨by decide, by decide, by decide⟩

/-- Claim C4 as amended: `smooth` emits the first point of every non-empty
loop, and then for each subsequent point, whenever the chord from the
previous emitted point to the current point is shorter than removeLength
it skips emitting the current point and instead emits the following point
unconditionally without testing it (when one exists); otherwise it emits
the current point. -/
theorem C4_smooth_amended (poly : Loop) (removeLength : Int) :
    PolygonRef.smooth poly removeLength = amendedSmooth poly removeLength := by
  cases poly with
  | nil => rfl
  | cons p rest =>
      simp [PolygonRef.smooth, amendedSmooth,
        smoothGo_eq_amendedGo removeLength p rest]

/-! ### Loop length (`PolygonRef::polygonLength`) -/

/-- The summation loop of `PolygonRef::polygonLength`: adds the truncated
Euclidean length of every segment from the running previous point. -/
def PolygonRef.polygonLengthGo : Point → List Point → Int
  | _, [] => 0
  | p0, p1 :: rest => vSize (p0 - p1) + PolygonRef.polygonLengthGo p1 rest

/-- `PolygonRef::polygonLength` (`src/utils/polygon.h`, lines 97-108): the
code reads `(*polygon)[polygon->size()-1]` before the loop.  On an empty
loop that index access is out of range (the unsigned size underflows), so
the embedding returns `none` in that case; otherwise the initial previous
point is the last vertex and the loop sums every edge. -/
def PolygonRef.polygonLength (poly : Loop) : Option Int :=
  match poly[poly.length - 1]? with
  | none => none
  | some p0 => some (PolygonRef.polygonLengthGo p0 poly)

/-- The edge sum as the spec words it: the sum over all edges, including
the wrap edge from the last point back to the first, of the Euclidean
edge lengths. -/
def edgeSum (poly : Loop) : Int :=
  (List.zipWith (fun a b => vSize (a - b)) poly (poly.rotate 1)).sum

theorem polygonLengthGo_eq_zipWith (rest : List Point) (p : Point) :
    PolygonRef.polygonLengthGo p rest =
      (List.zipWith (fun a b => vSize (a - b)) (p :: rest) rest).sum := by
  induction rest generalizing p with
  | nil => rfl
  | cons r rest ih =>
      simp [PolygonRef.polygonLengthGo, ih r]

theorem zipWith_append_last (f : Point → Point → Int) (rest : List Point)
    (p q : Point) :
    List.zipWith f (p :: rest) (rest ++ [q]) =
      List.zipWith f (p :: rest) rest ++
        [f ((p :: rest).getLast (by simp)) q] := by
  induction rest generalizing p with
  | nil => rfl
  | cons r rest ih =>
      simp only [List.cons_append, List.zipWith_cons_cons, ih r]
      simp [List.getLast_cons]

/-- Claim C9: on the empty loop, `polygonLength` performs an out-of-range
point access (embedded as `none`) instead of returning 0 without failure;
on every non-empty loop it returns the sum of the (integer) Euclidean
distances over all edges including the wrap edge. -/
theorem C9_polygonLength :
    PolygonRef.polygonLength ([] : Loop) = none ∧
    ∀ (p : Point) (rest : List Point),
      PolygonRef.polygonLength (p :: rest) = some (edgeSum (p :: rest)) := by
  constructor
  · rfl
  · intro p rest
    have hlast : (p :: rest)[(p :: rest).length - 1]? =
        some ((p :: rest).getLast (by simp)) := by
      rw [← List.getLast?_eq_getElem?]
      exact List.getLast?_eq_getLast (p :: rest) (by simp)
    have hrot : (p :: rest).rotate 1 = rest ++ [p] := by
      simp [List.rotate_cons_succ]
    simp only [PolygonRef.polygonLength, hlast]
    congr 1
    have hgo : PolygonRef.polygonLengthGo ((p :: rest).getLast (by simp))
        (p :: rest) =
        vSize ((p :: rest).getLast (by simp) - p) +
          (List.zipWith (fun a b => vSize (a - b)) (p :: rest) rest).sum := by
      simp [PolygonRef.polygonLengthGo, polygonLengthGo_eq_zipWith rest p]
    rw [hgo, edgeSum, hrot, zipWith_append_last]
    simp [add_comm]

/-! ### Removal of small loops (`Polygons::removeSmallAreas`) -/

/-- Modelled from the spec: the standard shoelace sum, doubled so that it
stays an exact integer.  `ClipperLib::Area` (the external clipping engine)
returns half of this value. -/
def shoelace2 (l : Loop) : Int :=
  (List.zipWith (fun p q => p.1 * q.2 - q.1 * p.2) l (l.rotate 1)).sum

/-- Modelled from the spec: the signed area returned by the clipping
engine, as an exact rational. -/
def area (l : Loop) : Rat := (shoelace2 l : Rat) / 2

/-- The quantity compared by `Polygons::removeSmallAreas`:
`INT2MM(INT2MM(fabs(area)))`, the absolute loop area divided once by 1000
per dimension (`INT2MM`, modelled from the spec as division by 1000). -/
def areaMm2 (l : Loop) : Rat := |area l| / 1000 / 1000

/-- The index loop of `Polygons::removeSmallAreas` (`src/utils/polygon.h`,
lines 563-571): at index `i`, a loop with area below the threshold is
erased in place and the index is not advanced (the code does `remove(i);
i -= 1` before the `i++` of the loop); otherwise the index advances.  The
fuel argument counts the remaining iterations and equals
`s.length - i` at every call, so running out of fuel coincides with the
loop condition `i < size()` turning false. -/
def Polygons.removeSmallAreasGo (minAreaSize : Rat) :
    Nat → Shape → Nat → Shape
  | 0, s, _ => s
  | k + 1, s, i =>
      if areaMm2 (s.getD i []) < minAreaSize then
        Polygons.removeSmallAreasGo minAreaSize k (s.eraseIdx i) i
      else
        Polygons.removeSmallAreasGo minAreaSize k s (i + 1)

/-- `Polygons::removeSmallAreas` (`src/utils/polygon.h`, lines 560-572). -/
def Polygons.removeSmallAreas (minAreaSize : Rat) (s : Shape) : Shape :=
  Polygons.removeSmallAreasGo minAreaSize s.length s 0

theorem removeSmallAreasGo_spec (minAreaSize : Rat) (k : Nat) :
    ∀ (s : Shape) (i : Nat), k = s.length - i → i ≤ s.length →
      Polygons.removeSmallAreasGo minAreaSize k s i =
        s.take i ++
          (s.drop i).filter (fun l => !decide (areaMm2 l < minAreaSize)) := by
  induction k with
  | zero =>
      intro s i hk hle
      have : i = s.length := by omega
      subst this
      simp [Polygons.removeSmallAreasGo]
  | succ k ih =>
      intro s i hk hle
      have hi : i < s.length := by omega
      have hget : s.getD i [] = s[i] := List.getD_eq_getElem s [] hi
      have hdrop : s.drop i = s[i] :: s.drop (i + 1) :=
        List.drop_eq_getElem_cons hi
      by_cases harea : areaMm2 s[i] < minAreaSize
      · have hlen : (s.eraseIdx i).length = s.length - 1 := by
          simp [List.length_eraseIdx, hi]
        have herase : s.eraseIdx i = s.take i ++ s.drop (i + 1) :=
          List.eraseIdx_eq_take_drop_succ s i
        have htk : (s.eraseIdx i).take i = s.take i := by
          rw [herase, List.take_append_of_le_length]
          · exact (List.take_take i i s).trans (by rw [min_self])
          · simp [List.length_take]
            omega
        have hdr : (s.eraseIdx i).drop i = s.drop (i + 1) := by
          rw [herase, List.drop_append_of_le_length]
          · have : (s.take i).length = i := by simp; omega
            simp [this]
          · simp [List.length_take]
            omega
        rw [Polygons.removeSmallAreasGo, hget, if_pos harea,
          ih (s.eraseIdx i) i (by omega) (by omega), htk, hdr, hdrop]
        simp [List.filter, harea]
      · have htake : s.take (i + 1) = s.take i ++ [s[i]] := by
          rw [List.take_succ]
          simp [List.getElem?_eq_getElem hi]
        rw [Polygons.removeSmallAreasGo, hget, if_neg harea,
          ih s (i + 1) (by omega) (by omega), htake, hdrop]
        have hfil : (s[i] :: s.drop (i + 1)).filter
            (fun l => !decide (areaMm2 l < minAreaSize)) =
            s[i] :: (s.drop (i + 1)).filter
              (fun l => !decide (areaMm2 l < minAreaSize)) := by
          simp [List.filter, harea]
        rw [hfil, List.append_assoc]
        rfl

/-- A loop of area exactly 1 square millimeter (internal units are
thousandths). -/
def loopArea1 : Loop := [(0, 0), (1000, 0), (1000, 1000), (0, 1000)]

/-- A loop of area exactly 5 square millimeters. -/
def loopArea5 : Loop := [(0, 0), (1000, 0), (1000, 5000), (0, 5000)]

/-- A loop of area exactly 50 square millimeters. -/
def loopArea50 : Loop := [(0, 0), (5000, 0), (5000, 10000), (0, 10000)]

theorem areaMm2_loopArea1 : areaMm2 loopArea1 = 1 := by
  norm_num [areaMm2, area, shoelace2, loopArea1, List.rotate]

theorem areaMm2_loopArea5 : areaMm2 loopArea5 = 5 := by
  norm_num [areaMm2, area, shoelace2, loopArea5, List.rotate]

theorem areaMm2_loopArea50 : areaMm2 loopArea50 = 50 := by
  norm_num [areaMm2, area, shoelace2, loopArea50, List.rotate]

/-- Claim C5: `removeSmallAreas(minAreaMm2)` leaves exactly those loops
whose absolute area in square millimeters (the internal-unit area divided
by 1000 once per dimension) is at least the threshold, in their original
relative order; in particular loops of areas 1, 5 and 50 square
millimeters with threshold 4 reduce to the loops of areas 5 and 50. -/
theorem C5_removeSmallAreas :
    (∀ (s : Shape) (minAreaSize : Rat),
        Polygons.removeSmallAreas minAreaSize s =
          s.filter (fun l => !decide (areaMm2 l < minAreaSize))) ∧
    Polygons.removeSmallAreas 4 [loopArea1, loopArea5, loopArea50] =
      [loopArea5, loopArea50] := by
  have hgen : ∀ (s : Shape) (minAreaSize : Rat),
      Polygons.removeSmallAreas minAreaSize s =
        s.filter (fun l => !decide (areaMm2 l < minAreaSize)) := by
    intro s minAreaSize
    simpa using
      removeSmallAreasGo_spec minAreaSize s.length s 0 (by omega) (by omega)
  refine ⟨hgen, ?_⟩
  rw [hgen]
  simp [List.filter, areaMm2_loopArea1, areaMm2_loopArea5, areaMm2_loopArea50]
  norm_num

/-! ### Duplicate removal (`Polygons::remove`) -/

/-- Wrap of an integer into the signed 32-bit range, by the modular rule
of the two-complement machine representation.  `Polygons::remove`
declares `int smallestDist2 = -1` (line 634) and `int dist2 = vSize2(...)`
(lines 637 and 650), so the 64-bit squared distance of the point
primitive is narrowed to a 32-bit `int` (an implementation-defined
conversion in C++, wrapping on the targets this code ships on), and
`same_distance * same_distance` is likewise a 32-bit `int` product; all
the distance comparisons of the matching happen in that wrapped
arithmetic, which this definition makes explicit. -/
def toInt32 (n : Int) : Int := (n + 2 ^ 31) % 2 ^ 32 - 2 ^ 31

/-- The closest-vertex scan of `Polygons::remove` (`src/utils/polygon.h`,
lines 633-643): walks the candidate loop keeping the first index whose
squared distance to the reference point, narrowed to the 32-bit `int` of
the code, is strictly smaller than the best so far; the accumulator
starts at `(0, -1)` and a negative best distance forces the first
update. -/
def Polygons.closestScan (k0 : Point) :
    List Point → Nat → Nat × Int → Nat × Int
  | [], _, acc => acc
  | q :: rest, idx, (ci, sd) =>
      let d2 := toInt32 (vSize2 (q - k0))
      if d2 < sd ∨ sd < 0 then Polygons.closestScan k0 rest (idx + 1) (idx, d2)
      else Polygons.closestScan k0 rest (idx + 1) (ci, sd)

/-- The pair `(closest_point_idx, smallestDist2)` computed by
`Polygons::remove` for a candidate loop. -/
def Polygons.closestPoint (k0 : Point) (rem : List Point) : Nat × Int :=
  Polygons.closestScan k0 rem 0 (0, -1)

/-- The pairwise comparison of `Polygons::remove` (`src/utils/polygon.h`,
lines 648-656): every vertex of the candidate, cyclically shifted by the
rotation offset, must be within the squared tolerance of the
corresponding vertex of the kept loop; both the squared distance and the
squared tolerance are the 32-bit `int` values of the code. -/
def Polygons.pairsMatch (sameDistance : Int) (keep rem : Loop) (ci : Nat) :
    Bool :=
  (List.range keep.length).all fun i =>
    decide (toInt32 (vSize2 (rem.getD ((ci + i) % rem.length) origin -
      keep.getD i origin)) ≤ toInt32 (sameDistance * sameDistance))

/-- The per-candidate match test of `Polygons::remove`
(`src/utils/polygon.h`, lines 630-656): size-for-size match is required
(`continue` on a size mismatch or an empty candidate), then the candidate
vertex closest to vertex 0 of the kept loop fixes the rotation offset,
rejected when its 32-bit distance exceeds the 32-bit squared tolerance,
and finally all vertices are compared pairwise under that single
offset. -/
def Polygons.loopMatches (sameDistance : Int) (keep rem : Loop) : Bool :=
  if rem.length ≠ keep.length ∨ rem.length = 0 then false
  else if (Polygons.closestPoint (keep.getD 0 origin) rem).2 >
      toInt32 (sameDistance * sameDistance) then false
  else Polygons.pairsMatch sameDistance keep rem
    (Polygons.closestPoint (keep.getD 0 origin) rem).1

/-- The removal decision for one kept loop: the C++ loop sets
`should_be_removed` only when the kept loop is non-empty and some
candidate matches (the inner `break` makes this an existence test). -/
def Polygons.shouldBeRemoved (toRemove : Shape) (sameDistance : Int)
    (keep : Loop) : Bool :=
  decide (0 < keep.length) &&
    toRemove.any fun rem => Polygons.loopMatches sameDistance keep rem

/-- The result accumulation of `Polygons::remove`: kept loops that should
not be removed are appended to the fresh result, in order. -/
def Polygons.removeGo (toRemove : Shape) (sameDistance : Int) :
    Shape → Shape
  | [] => []
  | keep :: rest =>
      if Polygons.shouldBeRemoved toRemove sameDistance keep then
        Polygons.removeGo toRemove sameDistance rest
      else keep :: Polygons.removeGo toRemove sameDistance rest

/-- `Polygons::remove` (`src/utils/polygon.h`, lines 618-668): the method
builds a fresh `result` and returns it; it never writes to
`this->polygons`.  The embedding returns the pair (returned shape, state
of `self` after the call). -/
def Polygons.remove (self toRemove : Shape) (sameDistance : Int) :
    Shape × Shape :=
  (Polygons.removeGo toRemove sameDistance self, self)

/-- Claim C6, counterexample: with `self = [unitSquare]` and
`toRemove = [unitSquare]` at tolerance 0 the square has a perfect match
(the returned result is empty), yet after the call `self` still contains
the matching square, because `remove` builds a new shape and does not
mutate `self`. -/
theorem C6_counterexample :
    (Polygons.remove [unitSquare] [unitSquare] 0).2 = [unitSquare] ∧
    Polygons.loopMatches 0 unitSquare unitSquare = true ∧
    (Polygons.remove [unitSquare] [unitSquare] 0).1 = [] := by
  exact ⟨rfl, by decide, by decide⟩

/-- Claim C6 as amended: `removeMatching(toRemove, sameDistance)` does not
mutate `self`; it returns a new shape holding exactly the loops of `self`
without a size-for-size match in `toRemove` within tolerance
`sameDistance` (empty loops are always kept), in their original order,
while `self` is left unchanged. -/
theorem C6_remove_amended (self toRemove : Shape) (sameDistance : Int) :
    Polygons.remove self toRemove sameDistance =
      (self.filter
          (fun keep => !Polygons.shouldBeRemoved toRemove sameDistance keep),
        self) := by
  have hgo : ∀ l : Shape, Polygons.removeGo toRemove sameDistance l =
      l.filter
        (fun keep => !Polygons.shouldBeRemoved toRemove sameDistance keep) := by
    intro l
    induction l with
    | nil => rfl
    | cons keep rest ih =>
        by_cases h : Polygons.shouldBeRemoved toRemove sameDistance keep
        · simp [Polygons.removeGo, List.filter, h, ih]
        · simp only [Bool.not_eq_true] at h
          simp [Polygons.removeGo, List.filter, h, ih]
  rw [Polygons.remove, hgo]

theorem closestScan_spec (k0 : Point) :
    ∀ (l : List Point) (idx ci : Nat) (sd : Int),
      (∃ j, j < l.length ∧
          Polygons.closestScan k0 l idx (ci, sd) =
            (idx + j, toInt32 (vSize2 (l.getD j origin - k0)))) ∨
      Polygons.closestScan k0 l idx (ci, sd) = (ci, sd) := by
  intro l
  induction l with
  | nil => intro idx ci sd; right; rfl
  | cons q rest ih =>
      intro idx ci sd
      by_cases h : toInt32 (vSize2 (q - k0)) < sd ∨ sd < 0
      · rcases ih (idx + 1) idx (toInt32 (vSize2 (q - k0))) with ⟨j, hj, heq⟩ | heq
        · left
          refine ⟨j + 1, by simpa using Nat.succ_lt_succ hj, ?_⟩
          simp only [Polygons.closestScan, if_pos h, heq,
            List.getD_cons_succ, Prod.mk.injEq]
          exact ⟨by omega, trivial⟩
        · left
          refine ⟨0, by simp, ?_⟩
          simp [Polygons.closestScan, if_pos h, heq]
      · rcases ih (idx + 1) ci sd with ⟨j, hj, heq⟩ | heq
        · left
          refine ⟨j + 1, by simpa using Nat.succ_lt_succ hj, ?_⟩
          simp only [Polygons.closestScan, if_neg h, heq,
            List.getD_cons_succ, Prod.mk.injEq]
          exact ⟨by omega, trivial⟩
        · right
          simp [Polygons.closestScan, if_neg h, heq]

theorem closestPoint_spec (k0 q : Point) (rest : List Point) :
    ∃ j, j < (q :: rest).length ∧
      Polygons.closestPoint k0 (q :: rest) =
        (j, toInt32 (vSize2 ((q :: rest).getD j origin - k0))) := by
  have hstep : Polygons.closestPoint k0 (q :: rest) =
      Polygons.closestScan k0 rest 1 (0, toInt32 (vSize2 (q - k0))) := by
    simp [Polygons.closestPoint, Polygons.closestScan]
  rcases closestScan_spec k0 rest 1 0 (toInt32 (vSize2 (q - k0))) with ⟨j, hj, heq⟩ | heq
  · refine ⟨j + 1, by simpa using Nat.succ_lt_succ hj, ?_⟩
    rw [hstep, heq]
    simp only [List.getD_cons_succ, Prod.mk.injEq]
    exact ⟨by omega, trivial⟩
  · exact ⟨0, by simp, by rw [hstep, heq]; simp⟩

theorem pairsMatch_eq_true_iff (sameDistance : Int) (keep rem : Loop)
    (ci : Nat) :
    Polygons.pairsMatch sameDistance keep rem ci = true ↔
      ∀ i < keep.length,
        toInt32 (vSize2 (rem.getD ((ci + i) % rem.length) origin -
          keep.getD i origin)) ≤ toInt32 (sameDistance * sameDistance) := by
  simp [Polygons.pairsMatch, List.all_eq_true, List.mem_range]

theorem loopMatches_iff (sameDistance : Int) (k0 : Point)
    (krest : List Point) (rem : Loop) :
    Polygons.loopMatches sameDistance (k0 :: krest) rem = true ↔
      (rem.length = krest.length + 1 ∧
       (Polygons.closestPoint k0 rem).2 ≤
         toInt32 (sameDistance * sameDistance) ∧
       ∀ i < krest.length + 1,
         toInt32 (vSize2 (rem.getD (((Polygons.closestPoint k0 rem).1 + i) %
           rem.length) origin - (k0 :: krest).getD i origin)) ≤
           toInt32 (sameDistance * sameDistance)) := by
  by_cases hlen : rem.length = krest.length + 1
  · have hcond : ¬(rem.length ≠ (k0 :: krest).length ∨ rem.length = 0) := by
      simp [hlen]
    have hk0 : (k0 :: krest).getD 0 origin = k0 := rfl
    rw [Polygons.loopMatches, if_neg hcond, hk0]
    by_cases hgate :
        (Polygons.closestPoint k0 rem).2 > toInt32 (sameDistance * sameDistance)
    · rw [if_pos hgate]
      simp only [Bool.false_eq_true, false_iff]
      rintro ⟨_, hle, _⟩
      omega
    · rw [if_neg hgate, pairsMatch_eq_true_iff]
      simp only [List.length_cons]
      constructor
      · intro hall
        exact ⟨hlen, by omega, hall⟩
      · rintro ⟨_, _, hall⟩
        exact hall
  · have hcond : rem.length ≠ (k0 :: krest).length ∨ rem.length = 0 := by
      left
      simpa using hlen
    rw [Polygons.loopMatches, if_pos hcond]
    simp only [Bool.false_eq_true, false_iff]
    rintro ⟨h, _, _⟩
    exact hlen h

/-- The rotation-match predicate of claim C7 at a given starting shift:
both loops have the same vertex count and every vertex of the candidate,
cyclically shifted by `s`, lies within squared distance `t * t` of the
corresponding vertex of the kept loop. -/
def rotationWithin (t : Int) (keep rem : Loop) (s : Nat) : Bool :=
  decide (keep.length = rem.length) &&
    (List.range keep.length).all fun i =>
      decide (vSize2 (rem.getD ((s + i) % rem.length) origin -
        keep.getD i origin) ≤ t * t)

/-- The kept loop of the C7 counterexample: vertex 1 is far away while
vertices 0 and 2 are close together. -/
def keepC7 : Loop := [(0, 0), (100, 0), (0, 1)]

/-- The candidate of the C7 counterexample: the kept loop, with vertex 0
moved to (0,2) (still within tolerance 2) and the sequence rotated by
one. -/
def remC7 : Loop := [(100, 0), (0, 1), (0, 2)]

/-- Claim C7, counterexample: `remC7` is a cyclic rotation of `keepC7`
with every vertex within tolerance 2 (shift 2 aligns them), yet the
match is not detected and the loop is not removed: the candidate vertex
closest to vertex 0 of the kept loop is (0,1), which is not the rotation
counterpart of vertex 0, and the single alignment tried then fails. -/
theorem C7_counterexample :
    rotationWithin 2 keepC7 remC7 2 = true ∧
    Polygons.loopMatches 2 keepC7 remC7 = false ∧
    (Polygons.remove [keepC7] [remC7] 2).1 = [keepC7] := by
  exact ⟨by decide, by decide, by decide⟩

/-- Claim C7 as amended: the matching of `removeMatching` tests exactly
one alignment, and all its distance comparisons happen in the wrapped
32-bit `int` arithmetic the code declares (`toInt32` of the squared
distances and of `same_distance * same_distance`).  A candidate with the
same vertex count matches exactly when, after cyclically shifting it so
that its first vertex of minimum 32-bit squared distance to vertex 0 of
the kept loop sits at index 0 (that minimum not exceeding the 32-bit
squared tolerance), every shifted vertex is within the 32-bit squared
tolerance of the corresponding kept vertex.  Consequently a
within-tolerance cyclic rotation is detected, regardless of starting
index, whenever the vertex the scan selects is the rotation counterpart
of vertex 0; when it is not, the single tested alignment can miss the
rotation, and a vertex moved beyond the tolerance removes the match only
when the tested alignment pairs it with a vertex more than the tolerance
away. -/
theorem C7_remove_matching_amended :
    (∀ (sameDistance : Int) (k0 : Point) (krest : List Point) (rem : Loop),
        Polygons.loopMatches sameDistance (k0 :: krest) rem = true ↔
          (rem.length = krest.length + 1 ∧
           (Polygons.closestPoint k0 rem).2 ≤
             toInt32 (sameDistance * sameDistance) ∧
           ∀ i < krest.length + 1,
             toInt32 (vSize2 (rem.getD
               (((Polygons.closestPoint k0 rem).1 + i) %
                 rem.length) origin - (k0 :: krest).getD i origin)) ≤
               toInt32 (sameDistance * sameDistance))) ∧
    (∀ (sameDistance : Int) (k0 : Point) (krest : List Point) (rem : Loop)
        (s : Nat),
        rem.length = krest.length + 1 →
        (Polygons.closestPoint k0 rem).1 = s →
        (∀ i < krest.length + 1,
            toInt32 (vSize2 (rem.getD ((s + i) % rem.length) origin -
              (k0 :: krest).getD i origin)) ≤
              toInt32 (sameDistance * sameDistance)) →
        Polygons.loopMatches sameDistance (k0 :: krest) rem = true) := by
  constructor
  · intro sameDistance k0 krest rem
    exact loopMatches_iff sameDistance k0 krest rem
  · intro sameDistance k0 krest rem s hlen hs hall
    match rem, hlen with
    | q :: rest, hlen =>
      obtain ⟨j, hj, hcp⟩ := closestPoint_spec k0 q rest
      have hjfst : (Polygons.closestPoint k0 (q :: rest)).1 = j := by
        rw [hcp]
      have hjs : j = s := by
        rw [hjfst] at hs
        exact hs
      subst hjs
      have hsln : j < (q :: rest).length := hj
      have h0 := hall 0 (by omega)
      rw [Nat.add_zero, Nat.mod_eq_of_lt hsln] at h0
      rw [loopMatches_iff]
      refine ⟨hlen, ?_, ?_⟩
      · have hsnd : (Polygons.closestPoint k0 (q :: rest)).2 =
            toInt32 (vSize2 ((q :: rest).getD j origin - k0)) := by
          rw [hcp]
        rw [hsnd]
        simpa using h0
      · intro i hi
        rw [hjfst]
        exact hall i hi

/-- Claim C7 witness: the unit square rotated by one vertex is detected
as a match at tolerance 0, through the amended sufficiency condition. -/
theorem C7_remove_matching_amended_witness :
    Polygons.loopMatches 0 ((0, 0) :: [(10, 0), (10, 10), (0, 10)])
      [(10, 0), (10, 10), (0, 10), (0, 0)] = true := by
  exact C7_remove_matching_amended.2 0 (0, 0) [(10, 0), (10, 10), (0, 10)]
    [(10, 0), (10, 10), (0, 10), (0, 0)] 3 (by decide) (by decide)
    (by decide)

/-! ### Degenerate-vertex removal (`Polygons::removeDegenerateVerts`) -/

/-- The `isDegenerate` lambda of `Polygons::removeDegenerateVerts`
(`src/utils/polygon.h`, lines 583-588): the incoming and outgoing edge
vectors must satisfy `dot == -1 * vSize * vSize`, where `vSize` is the
integer-truncated Euclidean length of the point primitive. -/
def Polygons.isDegenerate (last now next : Point) : Bool :=
  decide (dot (now - last) (next - now) =
    -1 * vSize (now - last) * vSize (next - now))

/-- The retraction while-loop of `removeDegenerateVerts`
(`src/utils/polygon.h`, lines 598-601): while the result holds more than
one point and its last two points form a degenerate corner with the
upcoming point, pop the last point.  The fuel equals the length of the
result at every call, so it never runs out before the loop condition
turns false. -/
def Polygons.retract (next : Point) : Nat → Loop → Loop
  | 0, res => res
  | k + 1, res =>
      if 1 < res.length ∧
          Polygons.isDegenerate (res.getD (res.length - 2) origin)
            (res.getD (res.length - 1) origin) next = true then
        Polygons.retract next k res.dropLast
      else res

/-- The per-loop walk of `removeDegenerateVerts` (`src/utils/polygon.h`,
lines 590-607): at index `idx`, `last` is the last emitted point (or the
last input point while nothing was emitted), and `next` the next input
point (or the first emitted point on the final index).  The loop breaks
on the final index while nothing was emitted.  A degenerate corner drops
the current vertex and retracts the result; otherwise the vertex is
emitted.  The fuel counts the remaining indices, `poly.length - idx`. -/
def Polygons.degenWalk (poly : Loop) : Nat → Nat → Loop → Loop
  | 0, _, result => result
  | k + 1, idx, result =>
      let last := if result.length = 0
        then poly.getD (poly.length - 1) origin
        else result.getD (result.length - 1) origin
      if idx + 1 = poly.length ∧ result.length = 0 then result
      else
        let next := if idx + 1 = poly.length
          then result.getD 0 origin
          else poly.getD (idx + 1) origin
        if Polygons.isDegenerate last (poly.getD idx origin) next = true then
          Polygons.degenWalk poly k (idx + 1)
            (Polygons.retract next result.length result)
        else
          Polygons.degenWalk poly k (idx + 1)
            (result ++ [poly.getD idx origin])

/-- `Polygons::removeDegenerateVerts` (`src/utils/polygon.h`, lines
576-613): each loop is cleaned by the walk, and only cleaned loops with
more than 2 points are added to the result. -/
def Polygons.removeDegenerateVerts : Shape → Shape
  | [] => []
  | poly :: rest =>
      if 2 < (Polygons.degenWalk poly poly.length 0 []).length then
        Polygons.degenWalk poly poly.length 0 [] ::
          Polygons.removeDegenerateVerts rest
      else Polygons.removeDegenerateVerts rest

/-- The loop of the C8 counterexample: the spike out to (2,2) and back to
(1,1) makes the edges at (2,2) exactly anti-parallel. -/
def spikeDiag : Loop := [(0, 0), (2, 2), (1, 1)]

/-- Claim C8, counterexample: at vertex (2,2) of `spikeDiag` the edges
(2,2) and (-1,-1) are exactly anti-parallel in the sense of the claim
(the dot product is negative and its square equals the product of the
squared lengths, so dot = -|e_in|*|e_out| holds exactly over the reals),
but the truncated-integer test of the code compares -4 with
-1 * vSize((2,2)) * vSize((-1,-1)) = -2 and does not fire, so the vertex
is kept and the loop is returned unchanged instead of being cleaned. -/
theorem C8_counterexample :
    (dot ((2, 2) - ((0, 0) : Point)) ((1, 1) - ((2, 2) : Point)) < 0 ∧
      dot ((2, 2) - ((0, 0) : Point)) ((1, 1) - ((2, 2) : Point)) *
        dot ((2, 2) - ((0, 0) : Point)) ((1, 1) - ((2, 2) : Point)) =
        vSize2 ((2, 2) - ((0, 0) : Point)) *
          vSize2 ((1, 1) - ((2, 2) : Point))) ∧
    Polygons.isDegenerate (0, 0) (2, 2) (1, 1) = false ∧
    Polygons.removeDegenerateVerts [spikeDiag] = [spikeDiag] := by
  exact ⟨⟨by decide, by decide⟩, by decide, by decide⟩

set_option maxRecDepth 8192 in
/-- Claim C8 as amended: `removeDegenerateVerts` drops vertices whose
incoming and outgoing edges satisfy the truncated-integer test
`dot(e_in, e_out) == -vSize(e_in) * vSize(e_out)` (an approximation of
exact anti-parallelism that misses anti-parallel edge pairs of
non-integer length), iteratively retracting previously emitted vertices,
and every loop present in the returned shape has strictly more than 2
points; an axis-aligned spike is indeed removed. -/
theorem C8_removeDegenerateVerts_amended :
    (∀ (shape : Shape) (l : Loop),
        l ∈ Polygons.removeDegenerateVerts shape → 2 < l.length) ∧
    Polygons.removeDegenerateVerts [[(0, 0), (20, 0), (10, 0), (10, 10)]] =
      [[(0, 0), (10, 0), (10, 10)]] := by
  constructor
  · intro shape
    induction shape with
    | nil =>
        intro l h
        simp [Polygons.removeDegenerateVerts] at h
    | cons poly rest ih =>
        intro l h
        rw [Polygons.removeDegenerateVerts] at h
        by_cases hgt : 2 < (Polygons.degenWalk poly poly.length 0 []).length
        · rw [if_pos hgt] at h
          rcases List.mem_cons.mp h with heq | hmem
          · rw [heq]
            exact hgt
          · exact ih l hmem
        · rw [if_neg hgt] at h
          exact ih l h
  · decide

set_option maxRecDepth 8192 in
/-- Claim C8 witness for the amended length bound: the cleaned spike loop
produced by `removeDegenerateVerts` has more than 2 points. -/
theorem C8_removeDegenerateVerts_amended_witness :
    2 < ([(0, 0), (10, 0), (10, 10)] : Loop).length :=
  C8_removeDegenerateVerts_amended.1 [[(0, 0), (20, 0), (10, 0), (10, 10)]]
    [(0, 0), (10, 0), (10, 10)] (by decide)

/-! ### Simplification (`PolygonRef::simplify`) -/

/-- Modelled from the spec: the denominator of the simplification error
estimate.  The C++ computes
`int64(square(vSizeMM(u) + vSizeMM(v)) * 1000 * 1000)` with the
double-valued millimeter lengths of `intpoint.h` (not under `src/`); for
micron-unit vectors the real value is
`(|u| + |v|)^2 = vSize2 u + vSize2 v + 2 * sqrt(vSize2 u * vSize2 v)`,
embedded exactly as its floor by pulling the factor 2 under the integer
square root. -/
def simplifyDenom (u v : Point) : Int :=
  vSize2 u + vSize2 v + (isqrt ((4 * vSize2 u * vSize2 v).toNat) : Int)

/-- Wrap of an integer into the signed 64-bit range, by the modular rule
of the two-complement machine representation.  The numerator of the
error estimate of `simplify` is the `int64_t` product
`vSize2(next - v) * vSize2(next - last)`, which overflows the 64-bit
range for edges beyond roughly 55 millimeters; the overflow is signed
(undefined behavior in C++), modelled here as the wrapping the shipping
targets perform. -/
def toInt64 (n : Int) : Int := (n + 2 ^ 63) % 2 ^ 64 - 2 ^ 63

/-- The walk of `PolygonRef::simplify` (`src/utils/polygon.h`, lines
304-341).  The C++ variable `last` is a reference bound to vertex 0 of
the polygon (`Point& last = thiss[0]`), so emitting a vertex executes
`last = thiss[poly_idx]`, which writes the emitted vertex into slot 0 of
the polygon being simplified; the walk therefore threads the polygon
state, reads the current value of slot 0 as `last`, and reads `next`
through the wrap-around index on the current state.  The error estimate
divides the wrapped `int64_t` product by the denominator with the
truncating division of C++ (`Int.tdiv`); a zero denominator is an
integer division by zero in the C++ (it raises SIGFPE on the shipping
targets and is undefined behavior), so the walk returns `none` there.
The zero denominator is reachable: it needs `allowed2 ≤ 0` together with
a vertex and a neighbor that both coincide with `last`.  The fuel counts
the remaining indices, `poly.length - idx`, and `List.set` keeps the
length constant. -/
def PolygonRef.simplifyGo (allowed2 : Int) :
    Nat → Loop → Nat → Loop → Option (Loop × Loop)
  | 0, poly, _, result => some (result, poly)
  | k + 1, poly, idx, result =>
      if vSize2 (poly.getD idx origin - poly.getD 0 origin) < allowed2 then
        PolygonRef.simplifyGo allowed2 k poly (idx + 1) result
      else
        if simplifyDenom
            (poly.getD ((idx + 1) % poly.length) origin -
              poly.getD 0 origin)
            (poly.getD idx origin - poly.getD 0 origin) = 0 then none
        else
          if toInt64 (vSize2 (poly.getD ((idx + 1) % poly.length) origin -
                poly.getD idx origin) -
              Int.tdiv
                (toInt64 (vSize2 (poly.getD ((idx + 1) % poly.length) origin -
                    poly.getD idx origin) *
                  vSize2 (poly.getD ((idx + 1) % poly.length) origin -
                    poly.getD 0 origin)))
                (simplifyDenom
                  (poly.getD ((idx + 1) % poly.length) origin -
                    poly.getD 0 origin)
                  (poly.getD idx origin - poly.getD 0 origin))) <
              allowed2 then
            PolygonRef.simplifyGo allowed2 k poly (idx + 1) result
          else
            PolygonRef.simplifyGo allowed2 k
              (poly.set 0 (poly.getD idx origin))
              (idx + 1) (result ++ [poly.getD idx origin])

/-- `PolygonRef::simplify` (`src/utils/polygon.h`, lines 290-351): loops
of fewer than 4 points are copied unchanged; otherwise the walk starts
with the result holding vertex 0 and runs from index 1; when the walk
yields fewer than 3 points the output polygon is cleared and the input
polygon is copied in its state after the walk (vertex 0 may have been
overwritten through the `last` reference).  Returns `none` when the walk
hits the division by zero, otherwise the pair (polygon written to the
output, state of the input polygon after the call). -/
def PolygonRef.simplify (allowed2 : Int) (poly : Loop) :
    Option (Loop × Loop) :=
  if poly.length < 4 then some (poly, poly)
  else
    match PolygonRef.simplifyGo allowed2 (poly.length - 1) poly 1
        [poly.getD 0 origin] with
    | none => none
    | some r => if r.1.length < 3 then some (r.2, r.2) else some (r.1, r.2)

theorem vSize2_nonneg (p : Point) : 0 ≤ vSize2 p :=
  add_nonneg (mul_self_nonneg p.1) (mul_self_nonneg p.2)

theorem simplifyGo_some (allowed2 : Int) (hpos : 0 < allowed2) :
    ∀ (k : Nat) (poly : Loop) (idx : Nat) (result : Loop),
      ∃ r, PolygonRef.simplifyGo allowed2 k poly idx result = some r ∧
        r.2.length = poly.length := by
  intro k
  induction k with
  | zero => intro poly idx result; exact ⟨(result, poly), rfl, rfl⟩
  | succ k ih =>
      intro poly idx result
      rw [PolygonRef.simplifyGo]
      split
      · exact ih poly (idx + 1) result
      · rename_i hskip
        have hden : ¬ simplifyDenom
            (poly.getD ((idx + 1) % poly.length) origin -
              poly.getD 0 origin)
            (poly.getD idx origin - poly.getD 0 origin) = 0 := by
          have h1 : 0 ≤ vSize2 (poly.getD ((idx + 1) % poly.length) origin -
              poly.getD 0 origin) := vSize2_nonneg _
          have h2 : allowed2 ≤
              vSize2 (poly.getD idx origin - poly.getD 0 origin) := by
            omega
          have h3 : (0 : Int) ≤
              (isqrt ((4 *
                vSize2 (poly.getD ((idx + 1) % poly.length) origin -
                  poly.getD 0 origin) *
                vSize2 (poly.getD idx origin -
                  poly.getD 0 origin)).toNat) : Int) :=
            Int.natCast_nonneg _
          rw [simplifyDenom]
          omega
        rw [if_neg hden]
        split
        · exact ih poly (idx + 1) result
        · obtain ⟨r, hr, hrlen⟩ := ih (poly.set 0 (poly.getD idx origin))
            (idx + 1) (result ++ [poly.getD idx origin])
          refine ⟨r, hr, ?_⟩
          rw [hrlen]
          exact List.length_set poly 0 (poly.getD idx origin)

/-- The loop on which the aliasing of `simplify` becomes visible. -/
def simplifyExample : Loop := [(0, 0), (1, 0), (1, 1), (10, 0)]

/-- Claim C3, evaluation at the failing input: on the 4-point loop
(0,0),(1,0),(1,1),(10,0) with allowed squared error 4 the walk emits only
(0,0) and (10,0), so the fallback of the claim should copy the original
loop unchanged; but emitting (10,0) executed `last = thiss[3]` through
the reference aliasing vertex 0, so the copied loop starts with (10,0)
instead of (0,0) and the caller polygon is mutated the same way.  The
zero-denominator division is also exhibited: at threshold 0 a loop of
four coincident points reaches the integer division by zero (`none`).
The general part of the claim that does hold is proved for every
positive threshold, where the division by zero is unreachable: every
loop of at least 3 points simplifies, without failure, to a loop of at
least 3 points. -/
theorem C3_simplify_failing_input :
    (PolygonRef.simplify 4 simplifyExample =
        some ([(10, 0), (1, 0), (1, 1), (10, 0)],
          [(10, 0), (1, 0), (1, 1), (10, 0)]) ∧
      (PolygonRef.simplify 4 simplifyExample).map Prod.fst ≠
        some simplifyExample ∧
      PolygonRef.simplify 0 [(0, 0), (0, 0), (0, 0), (0, 0)] = none) ∧
    ∀ (allowed2 : Int) (poly : Loop), 0 < allowed2 → 3 ≤ poly.length →
      ∃ r, PolygonRef.simplify allowed2 poly = some r ∧
        3 ≤ r.1.length := by
  constructor
  · exact ⟨by decide, by decide, by decide⟩
  · intro allowed2 poly hpos h3
    rw [PolygonRef.simplify]
    by_cases h4 : poly.length < 4
    · rw [if_pos h4]
      exact ⟨(poly, poly), rfl, h3⟩
    · rw [if_neg h4]
      obtain ⟨r, hr, hrlen⟩ := simplifyGo_some allowed2 hpos
        (poly.length - 1) poly 1 [poly.getD 0 origin]
      rw [hr]
      dsimp only
      by_cases hlt : r.1.length < 3
      · rw [if_pos hlt]
        exact ⟨(r.2, r.2), rfl, by dsimp only; omega⟩
      · rw [if_neg hlt]
        exact ⟨(r.1, r.2), rfl, by dsimp only; omega⟩

/-- Claim C3 witness for the general part: at the positive threshold 4 a
concrete 3-point loop simplifies without failure to at least 3 points. -/
theorem C3_simplify_failing_input_witness :
    ∃ r, PolygonRef.simplify 4 [((0 : Int), (0 : Int)), (10, 0),
        (10, 10)] = some r ∧ 3 ≤ r.1.length :=
  C3_simplify_failing_input.2 4 [((0 : Int), (0 : Int)), (10, 0), (10, 10)]
    (by decide) (by decide)

/-! ### Decomposition into parts (`Polygons::splitIntoParts`) -/

/-- Modelled from the spec: a node of the nested contour tree returned by
the clipping engine for a unioned shape (`ClipperLib::PolyNode`): one
contour plus an ordered list of children. -/
inductive PolyTree where
  | node : Loop → List PolyTree → PolyTree

/-- The contour stored at a tree node. -/
def PolyTree.contour : PolyTree → Loop
  | .node c _ => c

/-- The ordered children of a tree node. -/
def PolyTree.children : PolyTree → List PolyTree
  | .node _ cs => cs

mutual
/-- `Polygons::_processPolyTreeNode` (`src/utils/polygon.h`, lines
671-685): iterate over the children of the node; for each child build one
shape from the child contour followed by the grandchild contours,
recursing into every grandchild before the finished shape is appended to
the result vector. -/
def Polygons.processPolyTreeNode : PolyTree → List Shape → List Shape
  | .node _ cs, ret => Polygons.processChildren cs ret

/-- The child loop of `_processPolyTreeNode`. -/
def Polygons.processChildren : List PolyTree → List Shape → List Shape
  | [], ret => ret
  | .node c gcs :: rest, ret =>
      Polygons.processChildren rest (Polygons.processGrands gcs [c] ret)

/-- The grandchild loop of `_processPolyTreeNode`: appends each grandchild
contour as a hole of the shape under construction and recurses into the
grandchild; once the loop is done, the finished shape is pushed onto the
result. -/
def Polygons.processGrands : List PolyTree → Shape → List Shape → List Shape
  | [], polys, ret => ret ++ [polys]
  | g :: grest, polys, ret =>
      Polygons.processGrands grest (polys ++ [g.contour])
        (Polygons.processPolyTreeNode g ret)
end

mutual
/-- The decomposition as the spec words it, over a forest of nodes at an
outer depth: every outer node yields one shape made of its contour
followed by its direct children contours as holes, and the islands nested
inside those holes yield further independent shapes, emitted before the
shape of the present node just as the code emits them. -/
def specParts : List PolyTree → List Shape
  | [] => []
  | .node c gcs :: rest =>
      specHoleParts gcs ++
        (c :: List.map PolyTree.contour gcs) :: specParts rest

/-- The shapes contributed by the islands nested inside a list of hole
nodes: the children of every hole are again outer nodes. -/
def specHoleParts : List PolyTree → List Shape
  | [] => []
  | .node _ gcs2 :: grest => specParts gcs2 ++ specHoleParts grest
end

mutual
theorem processChildren_eq (l : List PolyTree) (ret : List Shape) :
    Polygons.processChildren l ret = ret ++ specParts l := by
  match l with
  | [] => simp [Polygons.processChildren, specParts]
  | .node c gcs :: rest =>
      rw [Polygons.processChildren, processChildren_eq rest,
        processGrands_eq gcs [c] ret, specParts]
      simp

theorem processGrands_eq (l : List PolyTree) (polys : Shape)
    (ret : List Shape) :
    Polygons.processGrands l polys ret =
      ret ++ specHoleParts l ++ [polys ++ List.map PolyTree.contour l] := by
  match l with
  | [] => simp [Polygons.processGrands, specHoleParts]
  | g :: grest =>
      match g with
      | .node c2 gcs2 =>
          rw [Polygons.processGrands, Polygons.processPolyTreeNode,
            processChildren_eq gcs2 ret,
            processGrands_eq grest (polys ++ [PolyTree.contour (.node c2 gcs2)])
              (ret ++ specParts gcs2),
            specHoleParts]
          simp [PolyTree.contour, PolyTree.children]
end

/-- The outer boundary of the square-with-hole example, in microns. -/
def outerSquare : Loop := [(0, 0), (10000, 0), (10000, 10000), (0, 10000)]

/-- The hole contour of the square-with-hole example, fully inside the
outer boundary and oppositely wound. -/
def holeSquare : Loop :=
  [(2000, 2000), (2000, 8000), (8000, 8000), (8000, 2000)]

/-- Modelled from the spec: the nested contour tree the clipping engine
returns for the square with a smaller square hole fully inside: the root
carries no contour, the outer contour is its only child, and the hole is
the only child of the outer contour. -/
def treeSquareWithHole : PolyTree :=
  .node [] [.node outerSquare [.node holeSquare []]]

/-- First of the two disjoint squares. -/
def squareA : Loop := [(0, 0), (100, 0), (100, 100), (0, 100)]

/-- Second of the two disjoint squares. -/
def squareB : Loop := [(500, 0), (600, 0), (600, 100), (500, 100)]

/-- Modelled from the spec: the contour tree for two disjoint squares:
both contours are children of the root and have no children of their
own. -/
def treeTwoSquares : PolyTree :=
  .node [] [.node squareA [], .node squareB []]

/-- Claim C2: the tree walk of `splitIntoParts` emits, for every node at
an outer depth, exactly one shape whose loop 0 is the node contour
followed by the direct children contours as holes, recursing into the
children of the children; in particular the square-with-hole tree yields
one part of two loops (outer first, hole second) and the two-squares tree
yields two parts of one loop each. -/
theorem C2_splitIntoParts :
    (∀ (t : PolyTree) (ret : List Shape),
        Polygons.processPolyTreeNode t ret = ret ++ specParts t.children) ∧
    Polygons.processPolyTreeNode treeSquareWithHole [] =
      [[outerSquare, holeSquare]] ∧
    Polygons.processPolyTreeNode treeTwoSquares [] =
      [[squareA], [squareB]] := by
  refine ⟨?_, ?_, ?_⟩
  · intro t ret
    match t with
    | .node c cs =>
        rw [Polygons.processPolyTreeNode, processChildren_eq, PolyTree.children]
  · simp [treeSquareWithHole, Polygons.processPolyTreeNode,
      Polygons.processChildren, Polygons.processGrands, PolyTree.contour]
  · simp [treeTwoSquares, Polygons.processPolyTreeNode,
      Polygons.processChildren, Polygons.processGrands, PolyTree.contour]

end cura
